import Mathlib

/-!
# Verification of the `c-raylib` core library against its specification

This file gives a shallow embedding, in Lean 4, of the core subsystem of the
`dunamismax/c-raylib` repository:

* `src/libs/math_utils/src/math_utils.c` — overflow-checked 64-bit signed
  arithmetic (`safe_multiply_long_long`, `safe_add_long_long`) and the numeric
  routines built on it (`math_gcd`, `math_factorial`, `math_fibonacci`,
  `math_power`);
* `src/libs/data_structures/src/vector.c` — the fixed integer dynamic array
  (`vector_create`, `vector_push`, `vector_pop`, `vector_get`, `vector_set`).

Modelling conventions:

* C `long long` is 64-bit two's complement; values are modelled as `Int`
  together with the explicit bounds `LLONG_MIN ≤ x ≤ LLONG_MAX`.  The C code
  under scrutiny never actually performs an out-of-range `long long` operation
  (that is part of what is proved), so the `Int` model computes the same values
  the machine does.
* C99 signed division truncates toward zero; it is modelled by `Int.tdiv`,
  and `%` on positive operands by `Int.tmod`.
* `size_t` is 64-bit unsigned; it is modelled as `Nat` with an explicit
  `% WORD` (`WORD = 2 ^ 64`) wherever the C source can wrap
  (`capacity * GROWTH_FACTOR`, `size + 1`).
* The heap buffer of a vector is modelled as a `List Int` whose length is the
  allocated capacity.  `malloc`'s indeterminate contents are modelled as zeros
  (the code never reads a slot before writing it through the public API).
  An out-of-bounds store (undefined behaviour in C) is a no-op in the model:
  `List.set` past the end does nothing; the observable `size`/`capacity`
  fields still follow the C control flow exactly.
* `realloc` success is outside the program's control, so resizing operations
  take an explicit allocator oracle `allocOk : Bool`; `allocOk = false` is the
  `realloc`-returns-`NULL` path.  A successful `realloc` preserves the prefix
  of the old buffer that fits in the new block.
* Out parameters (`int *value`) become `Option Int` results; a `NULL` out
  pointer is the `wantValue = false` case.  C status codes (`0` / `-1`) are
  kept as `Int` results.  `NULL` handle arguments are not modelled: every
  claim under study is about a live container.
-/

/-! ## Safe 64-bit arithmetic (`math_utils.c`, lines 8–43) -/

/-- `LLONG_MAX` for a 64-bit `long long`. -/
def LLONG_MAX : Int := 2 ^ 63 - 1

/-- `LLONG_MIN` for a 64-bit `long long`. -/
def LLONG_MIN : Int := -(2 ^ 63)

/-- `static int safe_multiply_long_long(long long a, long long b, long long *result)`.

The C function returns `0` and writes the product through `result`, or returns
`-1` on overflow; here `none` is the `-1` path and `some r` the success path.
`LLONG_MAX / b` and friends are C99 truncating divisions (`Int.tdiv`). -/
def safe_multiply_long_long (a b : Int) : Option Int :=
  if a = 0 ∨ b = 0 then some 0
  else if 0 < a ∧ 0 < b then
    if LLONG_MAX.tdiv b < a then none else some (a * b)
  else if a < 0 ∧ b < 0 then
    if a < LLONG_MAX.tdiv b then none else some (a * b)
  else if 0 < a ∧ b < 0 then
    if b < LLONG_MIN.tdiv a then none else some (a * b)
  else -- a < 0 && b > 0
    if a < LLONG_MIN.tdiv b then none else some (a * b)

/-- `static int safe_add_long_long(long long a, long long b, long long *result)`. -/
def safe_add_long_long (a b : Int) : Option Int :=
  if (0 < b ∧ LLONG_MAX - b < a) ∨ (b < 0 ∧ a < LLONG_MIN - b) then none
  else some (a + b)

/-! ## Numeric routines (`math_utils.c`) -/

/-- The `while (b != 0)` Euclidean loop of `math_gcd`, after both arguments
have been replaced by their absolute values (so they live in `Nat`).

The loop variable `b` strictly decreases (`a % b < b`), so the loop finishes
in at most `b` iterations; the extra `fuel` argument makes the recursion
structural (hence kernel-computable) and is started at `b + 1`, which
`gcdLoopF_eq_gcd` proves sufficient.  The fuel-exhausted branch is never
reached from `math_gcd`. -/
def gcdLoopF : Nat → Nat → Nat → Nat
  | 0, a, _ => a
  | fuel + 1, a, b => if b = 0 then a else gcdLoopF fuel b (a % b)

/-- `int math_gcd(int a, int b)`: absolute values, then the Euclidean loop.
(`-INT_MIN` overflows in C; the claims are about the defined range.) -/
def math_gcd (a b : Int) : Int := (gcdLoopF (b.natAbs + 1) a.natAbs b.natAbs : Nat)

/-- The `for (int i = 2; i <= n; i++)` loop of `math_factorial`: folds
`safe_multiply_long_long` over the remaining multipliers, returning `-1` the
moment one multiplication overflows. -/
def factLoop : List Nat → Int → Int
  | [], result => result
  | i :: rest, result =>
    match safe_multiply_long_long result (i : Int) with
    | none => -1
    | some r => factLoop rest r

/-- `long long math_factorial(int n)`. -/
def math_factorial (n : Int) : Int :=
  if n < 0 then -1
  else if 20 < n then -1
  else factLoop (List.range' 2 (n.toNat - 1)) 1

/-- The `for (int i = 2; i <= n; i++)` loop of `math_fibonacci`, carrying
`(prev, curr)` and running for the given number of iterations. -/
def fibLoop : Nat → Int → Int → Int
  | 0, _, curr => curr
  | k + 1, prev, curr =>
    match safe_add_long_long prev curr with
    | none => -1
    | some next => fibLoop k curr next

/-- `long long math_fibonacci(int n)`. -/
def math_fibonacci (n : Int) : Int :=
  if n < 0 then -1
  else if n ≤ 1 then n
  else if 92 < n then -1
  else fibLoop (n.toNat - 1) 0 1

/-- The `while (exp > 0)` binary-exponentiation loop of `math_power`:
multiply `result` by `base_ll` when the low bit is set, square `base_ll`
while more bits remain, shift.  Any overflowing step returns `-1`.

The loop variable `e` strictly decreases (`e / 2 < e` for `e ≠ 0`), so the
loop finishes in at most `e` iterations; the extra `fuel` argument makes the
recursion structural and is started at `e`, which `powLoopF_spec` proves
sufficient.  The fuel-exhausted branch is never reached from `math_power`. -/
def powLoopF : Nat → Nat → Int → Int → Int
  | 0, _, result, _ => result
  | fuel + 1, e, result, base_ll =>
    if e = 0 then result
    else
      match (if e % 2 = 1 then safe_multiply_long_long result base_ll
             else some result) with
      | none => -1
      | some r =>
        if 1 < e then
          match safe_multiply_long_long base_ll base_ll with
          | none => -1
          | some b => powLoopF fuel (e / 2) r b
        else powLoopF fuel (e / 2) r base_ll

/-- `long long math_power(int base, int exp)`. -/
def math_power (base expo : Int) : Int :=
  if expo < 0 then 0
  else if expo = 0 then 1
  else if base = 0 then 0
  else if base = 1 then 1
  else if base = -1 then (if expo.tmod 2 = 0 then 1 else -1)
  else if 63 < expo then -1
  else powLoopF expo.toNat expo.toNat 1 base

/-! ## The fixed integer dynamic array (`vector.c`) -/

/-- `size_t` arithmetic is modulo `2 ^ 64`. -/
def WORD : Nat := 2 ^ 64

/-- `#define DEFAULT_CAPACITY 8`. -/
def DEFAULT_CAPACITY : Nat := 8

/-- `#define GROWTH_FACTOR 2`. -/
def GROWTH_FACTOR : Nat := 2

/-- The `Vector` struct of `vector.h`: `int *data` (modelled as the list of
the `capacity` allocated slots), `size_t size`, `size_t capacity`. -/
structure CVector where
  data : List Int
  size : Nat
  capacity : Nat
deriving DecidableEq, Repr

/-- `Vector *vector_create(size_t initial_capacity)` on the success path
(`malloc` contents are indeterminate; modelled as zeros). -/
def vector_create (initial_capacity : Nat) : CVector :=
  let cap := if initial_capacity = 0 then DEFAULT_CAPACITY else initial_capacity
  { data := List.replicate cap 0, size := 0, capacity := cap }

/-- `static int vector_resize(Vector *vec, size_t new_capacity)`.

`allocOk` is the allocator oracle: `false` is the `realloc`-returns-`NULL`
path, which returns `-1` and leaves the vector untouched.  On success the
surviving prefix of the old buffer is kept and the new block has exactly
`new_capacity` slots (fresh slots are modelled as zeros). -/
def vector_resize (allocOk : Bool) (vec : CVector) (new_capacity : Nat) :
    Int × CVector :=
  if allocOk then
    (0, { vec with
          data := vec.data.take new_capacity ++
            List.replicate (new_capacity - vec.data.length) 0,
          capacity := new_capacity })
  else (-1, vec)

/-- `int vector_push(Vector *vec, int value)`.

`vec->capacity * GROWTH_FACTOR` is `size_t` arithmetic, hence the `% WORD`;
there is no overflow check in the C source.  A store past the end of the
buffer (undefined behaviour in C, possible only when the doubling wraps) is
a no-op on the modelled buffer; `size` still follows the C control flow. -/
def vector_push (allocOk : Bool) (vec : CVector) (value : Int) :
    Int × CVector :=
  if vec.capacity ≤ vec.size then
    let new_capacity := vec.capacity * GROWTH_FACTOR % WORD
    let r := vector_resize allocOk vec new_capacity
    if r.1 ≠ 0 then (-1, vec)
    else (0, { r.2 with data := r.2.data.set r.2.size value,
                        size := (r.2.size + 1) % WORD })
  else
    (0, { vec with data := vec.data.set vec.size value,
                   size := (vec.size + 1) % WORD })

/-- `int vector_pop(Vector *vec, int *value)`.

`wantValue = false` is the `NULL` out-pointer case.  The shrink's `realloc`
gets its own allocator oracle; its failure is deliberately ignored by the C
source (`// Ignore failure for shrinking`). -/
def vector_pop (allocOk : Bool) (vec : CVector) (wantValue : Bool) :
    Int × Option Int × CVector :=
  if vec.size = 0 then (-1, none, vec)
  else
    let newSize := vec.size - 1
    let out := if wantValue then some (vec.data.getD newSize 0) else none
    let v1 : CVector := { vec with size := newSize }
    if newSize < v1.capacity / 4 ∧ DEFAULT_CAPACITY < v1.capacity then
      (0, out, (vector_resize allocOk v1 (v1.capacity / GROWTH_FACTOR)).2)
    else
      (0, out, v1)

/-- `int vector_get(const Vector *vec, size_t index, int *value)`.  The
argument is `const`: `vector_get` cannot modify the container, which the
Lean type records by returning no state. -/
def vector_get (vec : CVector) (index : Nat) : Int × Option Int :=
  if vec.size ≤ index then (-1, none)
  else (0, some (vec.data.getD index 0))

/-- `int vector_set(Vector *vec, size_t index, int value)`. -/
def vector_set (vec : CVector) (index : Nat) (value : Int) : Int × CVector :=
  if vec.size ≤ index then (-1, vec)
  else (0, { vec with data := vec.data.set index value })

/-- `size_t vector_size(const Vector *vec)` on a live handle. -/
def vector_size (vec : CVector) : Nat := vec.size

/-- The container invariant of the specification's data model, for the fixed
integer container: `length ≤ capacity`, the buffer really has `capacity`
allocated slots (in particular it is non-`NULL` whenever `capacity > 0`),
and — since `vector_create` never produces a zero capacity (`0` maps to
`DEFAULT_CAPACITY`) and no operation shrinks below `capacity / 2` —
`capacity` is positive. -/
def CVector.WF (vec : CVector) : Prop :=
  vec.size ≤ vec.capacity ∧ vec.data.length = vec.capacity ∧ 1 ≤ vec.capacity

instance (vec : CVector) : Decidable vec.WF :=
  inferInstanceAs (Decidable (_ ∧ _ ∧ _))

/-- One round of `vector_push` per list entry, each with its own allocator
oracle; used to state properties of arbitrary push sequences. -/
def pushIter (vec : CVector) : List (Bool × Int) → CVector
  | [] => vec
  | p :: rest => pushIter (vector_push p.1 vec p.2).2 rest

/-- All pushes in the sequence report success (`return 0`). -/
def pushAllOk (vec : CVector) : List (Bool × Int) → Prop
  | [] => True
  | p :: rest =>
    (vector_push p.1 vec p.2).1 = 0 ∧ pushAllOk (vector_push p.1 vec p.2).2 rest

instance instDecidablePushAllOk :
    ∀ (vec : CVector) (ps : List (Bool × Int)), Decidable (pushAllOk vec ps)
  | _, [] => .isTrue trivial
  | vec, p :: rest =>
    have : Decidable (pushAllOk (vector_push p.1 vec p.2).2 rest) :=
      instDecidablePushAllOk _ rest
    inferInstanceAs (Decidable (_ ∧ _))

/-! ## Helper lemmas -/

/-- Fuel `b + 1` (or any larger amount) is enough for the Euclidean loop:
it computes `Nat.gcd`. -/
theorem gcdLoopF_eq_gcd (fuel a b : Nat) (h : b < fuel) :
    gcdLoopF fuel a b = Nat.gcd a b := by
  induction fuel generalizing a b with
  | zero => omega
  | succ fuel ih =>
    by_cases hb : b = 0
    · simp [gcdLoopF, hb]
    · have hlt : a % b < fuel :=
        lt_of_lt_of_le (Nat.mod_lt a (Nat.pos_of_ne_zero hb)) (by omega)
      rw [gcdLoopF, if_neg hb, ih b (a % b) hlt, Nat.gcd_comm a b,
        Nat.gcd_rec b a]
      exact Nat.gcd_comm b (a % b)

/-! ## Claim theorems -/

/-- C7 (counterexample): the claim "for every integer `n`, `gcd(0, n) = n`"
fails at `n = -5`: `math_gcd` works on absolute values, so
`math_gcd 0 (-5) = 5 ≠ -5`. -/
theorem C7_counterexample : math_gcd 0 (-5) = 5 ∧ math_gcd 0 (-5) ≠ -5 := by
  decide

/-- C7 (amended): for all integers `a` and `b`, `math_gcd a b` is the
Euclidean greatest common divisor of the absolute values `|a|` and `|b|`
(Mathlib's `Int.gcd`); `math_gcd 0 n = n` holds for every *nonnegative* `n`
(for negative `n` it returns `|n|`); and `math_gcd 48 18 = 6`. -/
theorem C7_gcd_abs (a b n : Int) (hn : 0 ≤ n) :
    math_gcd a b = Int.gcd a b ∧ math_gcd 0 n = n ∧ math_gcd 48 18 = 6 := by
  refine ⟨?_, ?_, by decide⟩
  · unfold math_gcd
    rw [gcdLoopF_eq_gcd _ _ _ (by omega)]
    rfl
  · unfold math_gcd
    rw [gcdLoopF_eq_gcd _ _ _ (by omega)]
    simp only [Int.natAbs_zero, Nat.gcd_zero_left]
    omega

/-- Witness for `C7_gcd_abs` at `a = 48`, `b = 18`, `n = 5`. -/
theorem C7_gcd_abs_witness :
    math_gcd 48 18 = Int.gcd 48 18 ∧ math_gcd 0 5 = 5 ∧ math_gcd 48 18 = 6 :=
  C7_gcd_abs 48 18 5 (by decide)

/-- C4: `math_factorial` returns the sentinel `-1` exactly on the domain
errors `n < 0` and `n > 20`, and for `0 ≤ n ≤ 20` it returns `n!` exactly
(in particular `factorial 20 = 2432902008176640000` and `factorial 21`
fails); the internal overflow check never aborts a computation in range
(the returned value is `n! ≥ 1`, never the `-1` abort value). -/
theorem C4_factorial (n : Int) :
    ((n < 0 ∨ 20 < n) → math_factorial n = -1) ∧
    (0 ≤ n → n ≤ 20 → math_factorial n = (Nat.factorial n.toNat : Int)) ∧
    math_factorial 20 = 2432902008176640000 ∧ math_factorial 21 = -1 := by
  refine ⟨?_, ?_, by decide, by decide⟩
  · rintro (h | h)
    · simp [math_factorial, h]
    · have h' : ¬n < 0 := by omega
      simp [math_factorial, h, h']
  · intro h1 h2
    interval_cases n <;> decide

/-- Witness for `C4_factorial` at `n = 20`. -/
theorem C4_factorial_witness :
    math_factorial 20 = (Nat.factorial 20 : Int) :=
  (C4_factorial 20).2.1 (by decide) (by decide)

/-- C5: `math_fibonacci` returns the sentinel `-1` exactly on the domain
errors `n < 0` and `n > 92`, and for `0 ≤ n ≤ 92` it returns the `n`-th
Fibonacci number (`F 0 = 0`, `F 1 = 1`); in particular `fibonacci 92`
succeeds with `F 92` and `fibonacci 93` fails; the per-step overflow check
never fires in range. -/
theorem C5_fibonacci (n : Int) :
    ((n < 0 ∨ 92 < n) → math_fibonacci n = -1) ∧
    (0 ≤ n → n ≤ 92 → math_fibonacci n = (Nat.fib n.toNat : Int)) ∧
    math_fibonacci 92 = 7540113804746346429 ∧ math_fibonacci 93 = -1 := by
  refine ⟨?_, ?_, by decide, by decide⟩
  · rintro (h | h)
    · simp [math_fibonacci, h]
    · have h' : ¬n < 0 := by omega
      have h'' : ¬n ≤ 1 := by omega
      simp [math_fibonacci, h, h', h'']
  · intro h1 h2
    interval_cases n <;> decide

/-- Witness for `C5_fibonacci` at `n = 92`. -/
theorem C5_fibonacci_witness :
    math_fibonacci 92 = (Nat.fib 92 : Int) :=
  (C5_fibonacci 92).2.1 (by decide) (by decide)

/-- C10: `math_power 0 0 = 1`: the `exp == 0` test precedes the `base == 0`
test in the source, so the "anything to the zeroth power" rule wins over the
"zero to any power" rule on the doubly-special input `(0, 0)`. -/
theorem C10_power_zero_zero : math_power 0 0 = 1 := by decide

/-- The overflow test of `safe_multiply_long_long` is exact: the function
reports overflow precisely when the mathematical product leaves the 64-bit
signed range.  (No range assumption on the operands is even needed.) -/
theorem safe_multiply_eq_none_iff (a b : Int) :
    safe_multiply_long_long a b = none ↔
      a * b < LLONG_MIN ∨ LLONG_MAX < a * b := by
  have hMn : (0 : Int) ≤ LLONG_MAX := by norm_num [LLONG_MAX]
  have hmn : LLONG_MIN < 0 := by norm_num [LLONG_MIN]
  have hKn : (0 : Int) ≤ 2 ^ 63 := by norm_num
  have hmK : LLONG_MIN = -(2 ^ 63 : Int) := rfl
  by_cases h0 : a = 0 ∨ b = 0
  · have hab : a * b = 0 := by rcases h0 with h | h <;> simp [h]
    unfold safe_multiply_long_long
    rw [if_pos h0]
    refine iff_of_false (by simp) ?_
    rintro (h | h) <;> rw [hab] at h <;> omega
  · push_neg at h0
    obtain ⟨ha0, hb0⟩ := h0
    rcases ha0.lt_or_lt with ha | ha <;> rcases hb0.lt_or_lt with hb | hb
    · -- a < 0, b < 0: test is `a < LLONG_MAX / b`
      unfold safe_multiply_long_long
      rw [if_neg (by omega), if_neg (by omega),
        if_pos (⟨ha, hb⟩ : a < 0 ∧ b < 0)]
      have htd : LLONG_MAX.tdiv b = -(LLONG_MAX / (-b)) := by
        have h1 := Int.tdiv_neg LLONG_MAX (-b)
        rw [neg_neg] at h1
        rw [h1, Int.tdiv_eq_ediv hMn (by omega)]
      have hkey : (a < LLONG_MAX.tdiv b) ↔ LLONG_MAX < a * b := by
        rw [htd]
        have hlt : (0 : Int) < -b := by omega
        constructor
        · intro h
          have h3 := (Int.ediv_lt_iff_lt_mul hlt).mp
            (by linarith : LLONG_MAX / (-b) < -a)
          rwa [neg_mul_neg] at h3
        · intro h
          have h3 := (Int.ediv_lt_iff_lt_mul hlt).mpr
            (by rwa [neg_mul_neg] : LLONG_MAX < -a * -b)
          linarith
      have hpos : 0 < a * b := mul_pos_of_neg_of_neg ha hb
      by_cases hc : a < LLONG_MAX.tdiv b
      · rw [if_pos hc]
        exact iff_of_true rfl (Or.inr (hkey.mp hc))
      · rw [if_neg hc]
        refine iff_of_false (by simp) ?_
        rintro (h | h)
        · linarith
        · exact hc (hkey.mpr h)
    · -- a < 0, 0 < b: test is `a < LLONG_MIN / b`
      unfold safe_multiply_long_long
      rw [if_neg (by omega), if_neg (by omega), if_neg (by omega),
        if_neg (by omega)]
      have htd : LLONG_MIN.tdiv b = -((2 ^ 63 : Int) / b) := by
        rw [hmK, Int.neg_tdiv, Int.tdiv_eq_ediv hKn (by omega)]
      have hkey : (a < LLONG_MIN.tdiv b) ↔ a * b < LLONG_MIN := by
        rw [htd, hmK]
        constructor
        · intro h
          have h3 := (Int.ediv_lt_iff_lt_mul hb).mp
            (by linarith : (2 ^ 63 : Int) / b < -a)
          linarith
        · intro h
          have h3 := (Int.ediv_lt_iff_lt_mul hb).mpr
            (by linarith : (2 ^ 63 : Int) < -a * b)
          linarith
      have hneg : a * b < 0 := mul_neg_of_neg_of_pos ha hb
      by_cases hc : a < LLONG_MIN.tdiv b
      · rw [if_pos hc]
        exact iff_of_true rfl (Or.inl (hkey.mp hc))
      · rw [if_neg hc]
        refine iff_of_false (by simp) ?_
        rintro (h | h)
        · exact hc (hkey.mpr h)
        · linarith
    · -- 0 < a, b < 0: test is `b < LLONG_MIN / a`
      unfold safe_multiply_long_long
      rw [if_neg (by omega), if_neg (by omega), if_neg (by omega),
        if_pos (⟨ha, hb⟩ : 0 < a ∧ b < 0)]
      have htd : LLONG_MIN.tdiv a = -((2 ^ 63 : Int) / a) := by
        rw [hmK, Int.neg_tdiv, Int.tdiv_eq_ediv hKn (by omega)]
      have hkey : (b < LLONG_MIN.tdiv a) ↔ a * b < LLONG_MIN := by
        rw [htd, hmK]
        constructor
        · intro h
          have h3 := (Int.ediv_lt_iff_lt_mul ha).mp
            (by linarith : (2 ^ 63 : Int) / a < -b)
          linarith
        · intro h
          have h3 := (Int.ediv_lt_iff_lt_mul ha).mpr
            (by linarith : (2 ^ 63 : Int) < -b * a)
          linarith
      have hneg : a * b < 0 := mul_neg_of_pos_of_neg ha hb
      by_cases hc : b < LLONG_MIN.tdiv a
      · rw [if_pos hc]
        exact iff_of_true rfl (Or.inl (hkey.mp hc))
      · rw [if_neg hc]
        refine iff_of_false (by simp) ?_
        rintro (h | h)
        · exact hc (hkey.mpr h)
        · linarith
    · -- 0 < a, 0 < b: test is `LLONG_MAX / b < a`
      unfold safe_multiply_long_long
      rw [if_neg (by omega), if_pos (⟨ha, hb⟩ : 0 < a ∧ 0 < b)]
      have htd : LLONG_MAX.tdiv b = LLONG_MAX / b :=
        Int.tdiv_eq_ediv hMn (le_of_lt hb)
      have hkey : (LLONG_MAX.tdiv b < a) ↔ LLONG_MAX < a * b := by
        rw [htd]
        exact Int.ediv_lt_iff_lt_mul hb
      have hpos : 0 < a * b := mul_pos ha hb
      by_cases hc : LLONG_MAX.tdiv b < a
      · rw [if_pos hc]
        exact iff_of_true rfl (Or.inr (hkey.mp hc))
      · rw [if_neg hc]
        refine iff_of_false (by simp) ?_
        rintro (h | h)
        · linarith
        · exact hc (hkey.mpr h)

/-- `safe_multiply_long_long` never wraps: any successful result is the
exact mathematical product. -/
theorem safe_multiply_eq (a b : Int) :
    safe_multiply_long_long a b = none ∨
      safe_multiply_long_long a b = some (a * b) := by
  unfold safe_multiply_long_long
  split_ifs with h1 h2 h3 h4 h5 h6 h7 h8
  all_goals first
    | exact Or.inl rfl
    | exact Or.inr rfl
    | exact Or.inr (by rcases h1 with h | h <;> simp [h])

/-- The overflow test of `safe_add_long_long` is exact on in-range operands,
and a successful result is the exact mathematical sum. -/
theorem safe_add_spec (a b : Int)
    (ha : LLONG_MIN ≤ a) (ha' : a ≤ LLONG_MAX)
    (hb : LLONG_MIN ≤ b) (hb' : b ≤ LLONG_MAX) :
    (safe_add_long_long a b = none ↔
        a + b < LLONG_MIN ∨ LLONG_MAX < a + b) ∧
    (safe_add_long_long a b ≠ none →
        safe_add_long_long a b = some (a + b)) := by
  have hM : LLONG_MAX = (9223372036854775807 : Int) := by norm_num [LLONG_MAX]
  have hm : LLONG_MIN = (-9223372036854775808 : Int) := by norm_num [LLONG_MIN]
  simp only [hM, hm] at ha ha' hb hb' ⊢
  unfold safe_add_long_long
  simp only [hM, hm]
  constructor
  · split_ifs with h
    · exact iff_of_true rfl (by omega)
    · exact iff_of_false (by simp) (by push_neg at h; omega)
  · intro h
    split_ifs at h ⊢ with h1
    · exact absurd rfl h
    · rfl

/-- C3: for 64-bit signed operands, `safe_multiply_long_long` reports
overflow (`none`, the C `-1` return) exactly when the mathematical product
`a * b` leaves `[LLONG_MIN, LLONG_MAX]` and otherwise returns the exact
product — never a wrapped value — and `safe_add_long_long` likewise reports
overflow exactly when the mathematical sum leaves the range and otherwise
returns the exact sum.  (Detection is by bounds comparison against
`LLONG_MAX`/`LLONG_MIN` divided — or offset — by an operand, as the
definitions of `safe_multiply_long_long` and `safe_add_long_long` show:
neither ever computes an out-of-range intermediate value.) -/
theorem C3_safe_arithmetic (a b : Int)
    (ha : LLONG_MIN ≤ a) (ha' : a ≤ LLONG_MAX)
    (hb : LLONG_MIN ≤ b) (hb' : b ≤ LLONG_MAX) :
    (safe_multiply_long_long a b = none ↔
        a * b < LLONG_MIN ∨ LLONG_MAX < a * b) ∧
    (safe_multiply_long_long a b ≠ none →
        safe_multiply_long_long a b = some (a * b)) ∧
    (safe_add_long_long a b = none ↔
        a + b < LLONG_MIN ∨ LLONG_MAX < a + b) ∧
    (safe_add_long_long a b ≠ none →
        safe_add_long_long a b = some (a + b)) := by
  refine ⟨safe_multiply_eq_none_iff a b, ?_,
    (safe_add_spec a b ha ha' hb hb').1, (safe_add_spec a b ha ha' hb hb').2⟩
  intro h
  rcases safe_multiply_eq a b with h' | h'
  · exact absurd h' h
  · exact h'

/-- Witness for `C3_safe_arithmetic` at `a = 3`, `b = 5`. -/
theorem C3_safe_arithmetic_witness :
    (safe_multiply_long_long 3 5 = none ↔
        (3 * 5 : Int) < LLONG_MIN ∨ LLONG_MAX < 3 * 5) ∧
    (safe_multiply_long_long 3 5 ≠ none →
        safe_multiply_long_long 3 5 = some (3 * 5)) ∧
    (safe_add_long_long 3 5 = none ↔
        (3 + 5 : Int) < LLONG_MIN ∨ LLONG_MAX < 3 + 5) ∧
    (safe_add_long_long 3 5 ≠ none →
        safe_add_long_long 3 5 = some (3 + 5)) :=
  C3_safe_arithmetic 3 5 (by decide) (by decide) (by decide) (by decide)

/-- Fuel `e` (or any larger amount) is enough for the binary-exponentiation
loop, and any result other than the `-1` abort is the exact power:
`powLoopF fuel e r b = r * b ^ e`. -/
theorem powLoopF_spec (fuel e : Nat) (r b : Int) (he : e ≤ fuel)
    (hne : powLoopF fuel e r b ≠ -1) :
    powLoopF fuel e r b = r * b ^ e := by
  induction fuel generalizing e r b with
  | zero =>
    have he0 : e = 0 := Nat.le_zero.mp he
    subst he0
    simp [powLoopF]
  | succ fuel ih =>
    by_cases he0 : e = 0
    · subst he0
      simp [powLoopF]
    · rcases hstep : (if e % 2 = 1 then safe_multiply_long_long r b
          else some r) with _ | r'
      · simp [powLoopF, he0, hstep] at hne
      · have hr' : r' = r * b ^ (e % 2) := by
          by_cases hpar : e % 2 = 1
          · rw [if_pos hpar] at hstep
            rcases safe_multiply_eq r b with h | h
            · rw [h] at hstep; cases hstep
            · rw [h] at hstep
              rw [hpar, pow_one]
              exact (Option.some.inj hstep).symm
          · rw [if_neg hpar] at hstep
            have hz : e % 2 = 0 := by omega
            rw [hz, pow_zero, mul_one]
            exact (Option.some.inj hstep).symm
        by_cases h1 : 1 < e
        · rcases hsq : safe_multiply_long_long b b with _ | b'
          · simp [powLoopF, he0, hstep, h1, hsq] at hne
          · have hb' : b' = b * b := by
              rcases safe_multiply_eq b b with h | h
              · rw [h] at hsq; cases hsq
              · rw [h] at hsq; exact (Option.some.inj hsq).symm
            have hred : powLoopF (fuel + 1) e r b = powLoopF fuel (e / 2) r' b' := by
              simp [powLoopF, he0, hstep, h1, hsq]
            rw [hred] at hne ⊢
            rw [ih (e / 2) r' b' (by omega) hne, hr', hb',
              show b * b = b ^ 2 from (pow_two b).symm, ← pow_mul, mul_assoc,
              ← pow_add, Nat.mod_add_div]
        · have he1 : e = 1 := by omega
          subst he1
          have hstep' : safe_multiply_long_long r b = some r' := by
            simpa using hstep
          have hred : powLoopF (fuel + 1) 1 r b = powLoopF fuel 0 r' b := by
            simp [powLoopF, hstep']
          rw [hred] at hne ⊢
          rw [ih 0 r' b (by omega) hne, hr']
          norm_num

/-- C6: `math_power` treats `exp < 0` as `0` by convention; `exp = 0` gives
`1`; bases `0`, `1`, `-1` are special-cased before the `exp > 63` domain
check (`0^exp = 0`, `1^exp = 1`, `(-1)^exp` by parity of `exp`); `exp > 63`
on a non-special base is the `-1` domain error; and otherwise the binary
exponentiation with overflow-checked multiplies either aborts with `-1`
(when a step overflows) or returns exactly `base ^ exp`. -/
theorem C6_power (base expo : Int) :
    (expo < 0 → math_power base expo = 0) ∧
    (math_power base 0 = 1) ∧
    (0 < expo → math_power 0 expo = 0) ∧
    (0 < expo → math_power 1 expo = 1) ∧
    (0 < expo → math_power (-1) expo = if expo.tmod 2 = 0 then 1 else -1) ∧
    (base ≠ 0 → base ≠ 1 → base ≠ -1 → 63 < expo →
      math_power base expo = -1) ∧
    (base ≠ 0 → base ≠ 1 → base ≠ -1 → 0 < expo → expo ≤ 63 →
      math_power base expo ≠ -1 →
      math_power base expo = base ^ expo.toNat) := by
  refine ⟨?_, ?_, ?_, ?_, ?_, ?_, ?_⟩
  · intro h
    simp [math_power, h]
  · simp [math_power]
  · intro h
    have h1 : ¬expo < 0 := by omega
    have h2 : expo ≠ 0 := by omega
    simp [math_power, h1, h2]
  · intro h
    have h1 : ¬expo < 0 := by omega
    have h2 : expo ≠ 0 := by omega
    simp [math_power, h1, h2]
  · intro h
    have h1 : ¬expo < 0 := by omega
    have h2 : expo ≠ 0 := by omega
    simp [math_power, h1, h2]
  · intro h0 h1 h2 h63
    have hc1 : ¬expo < 0 := by omega
    have hc2 : expo ≠ 0 := by omega
    simp [math_power, hc1, hc2, h0, h1, h2, h63]
  · intro h0 h1 h2 hpos h63 hne
    have hc1 : ¬expo < 0 := by omega
    have hc2 : expo ≠ 0 := by omega
    have hc3 : ¬63 < expo := by omega
    rw [math_power, if_neg hc1, if_neg hc2, if_neg h0, if_neg h1, if_neg h2,
      if_neg hc3] at hne ⊢
    rw [powLoopF_spec expo.toNat expo.toNat 1 base le_rfl hne, one_mul]

/-- Witness for `C6_power` at `base = 3`, `expo = 5` (and, for the earlier
conjuncts, at the concrete special bases). -/
theorem C6_power_witness : math_power 3 5 = 3 ^ (5 : Int).toNat :=
  (C6_power 3 5).2.2.2.2.2.2 (by decide) (by decide) (by decide) (by decide)
    (by decide) (by decide)

/-- Writing inside the buffer and reading the same slot back gives the
written value. -/
theorem getD_set_self (l : List Int) (i : Nat) (x d : Int)
    (h : i < l.length) : (l.set i x).getD i d = x := by
  induction l generalizing i with
  | nil => simp at h
  | cons a l ih =>
    cases i with
    | zero => simp
    | succ i => simpa using ih i (by simpa using h)

/-- The buffer produced by a successful `realloc` has exactly the requested
number of slots. -/
theorem resize_buffer_length (l : List Int) (nc : Nat) :
    (l.take nc ++ List.replicate (nc - l.length) 0).length = nc := by
  simp only [List.length_append, List.length_take, List.length_replicate]
  omega

/-- Shape of `vector_resize` on the `realloc`-failure path. -/
theorem vector_resize_false (v : CVector) (nc : Nat) :
    vector_resize false v nc = (-1, v) := rfl

/-- Shape of `vector_resize` on the `realloc`-success path. -/
theorem vector_resize_true (v : CVector) (nc : Nat) :
    (vector_resize true v nc).2 =
      { data := v.data.take nc ++ List.replicate (nc - v.data.length) 0,
        size := v.size, capacity := nc } := rfl

/-- Shape of `vector_push` on a full vector when the growth `realloc`
fails: the error code is returned and the vector is untouched. -/
theorem vector_push_full_false (v : CVector) (x : Int)
    (h : v.capacity ≤ v.size) : vector_push false v x = (-1, v) := by
  simp [vector_push, vector_resize, h]

/-- Shape of `vector_push` on a full vector when the growth `realloc`
succeeds. -/
theorem vector_push_full_true (v : CVector) (x : Int)
    (h : v.capacity ≤ v.size) :
    vector_push true v x =
      (0, { data := (v.data.take (v.capacity * GROWTH_FACTOR % WORD) ++
              List.replicate
                (v.capacity * GROWTH_FACTOR % WORD - v.data.length) 0).set
              v.size x,
            size := (v.size + 1) % WORD,
            capacity := v.capacity * GROWTH_FACTOR % WORD }) := by
  simp [vector_push, vector_resize, h]

/-- Shape of `vector_push` on a non-full vector: no resize happens. -/
theorem vector_push_notfull (v : CVector) (ok : Bool) (x : Int)
    (h : v.size < v.capacity) :
    vector_push ok v x =
      (0, { v with data := v.data.set v.size x,
                   size := (v.size + 1) % WORD }) := by
  simp [vector_push, Nat.not_le.mpr h]

/-- Shape of `vector_pop` on an empty vector. -/
theorem vector_pop_empty (v : CVector) (ok w : Bool) (h : v.size = 0) :
    vector_pop ok v w = (-1, none, v) := by
  simp [vector_pop, h]

/-- Shape of `vector_pop` when the shrink policy does not fire. -/
theorem vector_pop_noshrink (v : CVector) (ok w : Bool) (h : v.size ≠ 0)
    (h2 : ¬(v.size - 1 < v.capacity / 4 ∧ DEFAULT_CAPACITY < v.capacity)) :
    vector_pop ok v w =
      (0, if w then some (v.data.getD (v.size - 1) 0) else none,
        { v with size := v.size - 1 }) := by
  simp only [vector_pop, if_neg h]
  simp [h, h2]

/-- Shape of `vector_pop` when the shrink policy fires. -/
theorem vector_pop_shrink (v : CVector) (ok w : Bool) (h : v.size ≠ 0)
    (h2 : v.size - 1 < v.capacity / 4 ∧ DEFAULT_CAPACITY < v.capacity) :
    vector_pop ok v w =
      (0, if w then some (v.data.getD (v.size - 1) 0) else none,
        (vector_resize ok { v with size := v.size - 1 }
          (v.capacity / GROWTH_FACTOR)).2) := by
  simp [vector_pop, h, h2]

/-- A successful `vector_push` (on a well-formed vector whose capacity
doubling cannot wrap) preserves well-formedness, increments `size` by one,
stores the value at the old `size`, and either keeps the capacity or — when
the vector was full — doubles it. -/
theorem vector_push_success (v : CVector) (ok : Bool) (x : Int)
    (hwf : v.WF) (hnw : 2 * v.capacity < WORD)
    (hok : (vector_push ok v x).1 = 0) :
    (vector_push ok v x).2.WF ∧
    (vector_push ok v x).2.size = v.size + 1 ∧
    (vector_push ok v x).2.data.getD v.size 0 = x ∧
    ((vector_push ok v x).2.capacity = v.capacity ∨
      ((vector_push ok v x).2.capacity = 2 * v.capacity ∧
        v.size = v.capacity)) := by
  obtain ⟨hsz, hlen, hpos⟩ := hwf
  have hW : WORD = 18446744073709551616 := by norm_num [WORD]
  rw [hW] at hnw
  by_cases hfull : v.capacity ≤ v.size
  · have hseq : v.size = v.capacity := le_antisymm hsz hfull
    cases ok with
    | false =>
      rw [vector_push_full_false v x hfull] at hok
      simp at hok
    | true =>
      have hnc : v.capacity * GROWTH_FACTOR % WORD = 2 * v.capacity := by
        rw [show v.capacity * GROWTH_FACTOR = 2 * v.capacity by
              rw [GROWTH_FACTOR, Nat.mul_comm], hW]
        omega
      have hs1 : (v.size + 1) % WORD = v.size + 1 := by
        rw [hW]; omega
      rw [vector_push_full_true v x hfull]
      have hlen2 : ((v.data.take (v.capacity * GROWTH_FACTOR % WORD) ++
          List.replicate (v.capacity * GROWTH_FACTOR % WORD - v.data.length)
            0).set v.size x).length = 2 * v.capacity := by
        rw [List.length_set, resize_buffer_length, hnc]
      refine ⟨⟨?_, ?_, ?_⟩, ?_, ?_, ?_⟩
      · show (v.size + 1) % WORD ≤ v.capacity * GROWTH_FACTOR % WORD
        rw [hs1, hnc]; omega
      · exact hlen2.trans hnc.symm
      · show 1 ≤ v.capacity * GROWTH_FACTOR % WORD
        rw [hnc]; omega
      · exact hs1
      · show ((v.data.take (v.capacity * GROWTH_FACTOR % WORD) ++
            List.replicate (v.capacity * GROWTH_FACTOR % WORD - v.data.length)
              0).set v.size x).getD v.size 0 = x
        apply getD_set_self
        rw [resize_buffer_length, hnc]
        omega
      · exact Or.inr ⟨hnc, hseq⟩
  · have hlt : v.size < v.capacity := by omega
    have hs1 : (v.size + 1) % WORD = v.size + 1 := by
      rw [hW]; omega
    rw [vector_push_notfull v ok x hlt]
    refine ⟨⟨?_, ?_, ?_⟩, hs1, ?_, Or.inl rfl⟩
    · show (v.size + 1) % WORD ≤ v.capacity
      rw [hs1]; omega
    · show (v.data.set v.size x).length = v.capacity
      rw [List.length_set, hlen]
    · exact hpos
    · exact getD_set_self _ _ _ _ (by omega)

/-- `vector_push` preserves the container invariant whether it succeeds or
fails (on failure the vector is returned untouched). -/
theorem vector_push_WF (v : CVector) (ok : Bool) (x : Int) (hwf : v.WF)
    (hnw : 2 * v.capacity < WORD) :
    (vector_push ok v x).2.WF := by
  by_cases hok : (vector_push ok v x).1 = 0
  · exact (vector_push_success v ok x hwf hnw hok).1
  · by_cases hfull : v.capacity ≤ v.size
    · cases ok with
      | false => rw [vector_push_full_false v x hfull]; exact hwf
      | true =>
        rw [vector_push_full_true v x hfull] at hok
        exact absurd rfl hok
    · rw [vector_push_notfull v ok x (by omega)] at hok
      exact absurd rfl hok

/-- `vector_pop` preserves the container invariant (including through the
best-effort shrink, whether its `realloc` succeeds or fails). -/
theorem vector_pop_WF (v : CVector) (ok w : Bool) (hwf : v.WF) :
    (vector_pop ok v w).2.2.WF := by
  obtain ⟨hsz, hlen, hpos⟩ := hwf
  by_cases h0 : v.size = 0
  · rw [vector_pop_empty v ok w h0]; exact ⟨hsz, hlen, hpos⟩
  · by_cases hs : v.size - 1 < v.capacity / 4 ∧ DEFAULT_CAPACITY < v.capacity
    · rw [vector_pop_shrink v ok w h0 hs]
      obtain ⟨hs1, hs2⟩ := hs
      rw [DEFAULT_CAPACITY] at hs2
      cases ok with
      | false =>
        refine ⟨?_, hlen, hpos⟩
        show v.size - 1 ≤ v.capacity
        omega
      | true =>
        rw [vector_resize_true]
        refine ⟨?_, resize_buffer_length _ _, ?_⟩
        · show v.size - 1 ≤ v.capacity / GROWTH_FACTOR
          rw [GROWTH_FACTOR]; omega
        · show 1 ≤ v.capacity / GROWTH_FACTOR
          rw [GROWTH_FACTOR]; omega
    · rw [vector_pop_noshrink v ok w h0 hs]
      refine ⟨?_, hlen, hpos⟩
      show v.size - 1 ≤ v.capacity
      omega

/-- `vector_set` preserves the container invariant. -/
theorem vector_set_WF (v : CVector) (i : Nat) (x : Int) (hwf : v.WF) :
    (vector_set v i x).2.WF := by
  obtain ⟨hsz, hlen, hpos⟩ := hwf
  unfold vector_set
  split_ifs with h
  · exact ⟨hsz, hlen, hpos⟩
  · exact ⟨hsz, by simpa using hlen, hpos⟩

/-- `vector_create` establishes the container invariant. -/
theorem vector_create_WF (c0 : Nat) : (vector_create c0).WF := by
  unfold vector_create CVector.WF
  by_cases h : c0 = 0
  · simp [h, DEFAULT_CAPACITY]
  · simp [h, Nat.one_le_iff_ne_zero]

/-- A prefix of an all-successful push sequence is all-successful. -/
theorem pushAllOk_take (v : CVector) (ps : List (Bool × Int)) (k : Nat)
    (h : pushAllOk v ps) : pushAllOk v (ps.take k) := by
  induction ps generalizing v k with
  | nil => simp [pushAllOk]
  | cons p rest ih =>
    cases k with
    | zero => exact trivial
    | succ k => exact ⟨h.1, ih _ k h.2⟩

/-- Main induction for push sequences: starting from a well-formed vector
whose capacity is bounded by `max c0 (2 * size)` — true of any freshly
created vector with created capacity `c0` — an all-successful sequence of
pushes whose final size keeps the doubling below the `size_t` wrap ends in a
well-formed vector, adds exactly one element per push, and keeps the
capacity bound. -/
theorem pushIter_spec (ps : List (Bool × Int)) (v : CVector) (c0 : Nat)
    (hwf : v.WF) (hcap : v.capacity ≤ max c0 (2 * v.size))
    (hbound : 2 * max c0 (2 * (v.size + ps.length)) < WORD)
    (hok : pushAllOk v ps) :
    (pushIter v ps).WF ∧
    (pushIter v ps).size = v.size + ps.length ∧
    (pushIter v ps).capacity ≤ max c0 (2 * (pushIter v ps).size) := by
  induction ps generalizing v with
  | nil => exact ⟨hwf, by simp [pushIter], by simpa [pushIter] using hcap⟩
  | cons p rest ih =>
    obtain ⟨hok1, hokrest⟩ := hok
    have hnw : 2 * v.capacity < WORD := by
      have h1 : max c0 (2 * v.size) ≤
          max c0 (2 * (v.size + (p :: rest).length)) := by
        simp only [List.length_cons]
        omega
      omega
    obtain ⟨hwf', hsize', _, hcap'⟩ :=
      vector_push_success v p.1 p.2 hwf hnw hok1
    have hcap'' : (vector_push p.1 v p.2).2.capacity ≤
        max c0 (2 * (vector_push p.1 v p.2).2.size) := by
      rcases hcap' with h | ⟨h, hfull⟩
      · rw [h, hsize']; omega
      · rw [h, hsize', hfull]; omega
    have hbound' : 2 * max c0
        (2 * ((vector_push p.1 v p.2).2.size + rest.length)) < WORD := by
      rw [hsize']
      simp only [List.length_cons] at hbound
      omega
    have hres := ih (vector_push p.1 v p.2).2 hwf' hcap'' hbound' hokrest
    refine ⟨hres.1, ?_, hres.2.2⟩
    show (pushIter (vector_push p.1 v p.2).2 rest).size = v.size + (p :: rest).length
    rw [hres.2.1, hsize']
    simp only [List.length_cons]
    omega


/-- After a pop, the capacity is either unchanged or (exactly when the
shrink policy fired and its `realloc` succeeded) halved. -/
theorem vector_pop_capacity (v : CVector) (ok w : Bool) (h : v.size ≠ 0) :
    (vector_pop ok v w).2.2.capacity = v.capacity ∨
    ((v.size - 1 < v.capacity / 4 ∧ DEFAULT_CAPACITY < v.capacity) ∧
      ok = true ∧
      (vector_pop ok v w).2.2.capacity = v.capacity / GROWTH_FACTOR) := by
  by_cases hs : v.size - 1 < v.capacity / 4 ∧ DEFAULT_CAPACITY < v.capacity
  · cases ok with
    | false =>
      left
      rw [vector_pop_shrink v false w h hs]
      rfl
    | true =>
      right
      refine ⟨hs, rfl, ?_⟩
      rw [vector_pop_shrink v true w h hs]
      rfl
  · left
    rw [vector_pop_noshrink v ok w h hs]

/-- C1 (counterexample): `vector_push` has no overflow check on the grown
capacity.  On a full vector of capacity `2 ^ 63` (a state the claim's
universal quantification covers), the doubling `capacity * GROWTH_FACTOR`
wraps to `0` in `size_t` arithmetic; with a succeeding allocator the push
then reports *success* (`0`, not a `CapacityOverflow` failure) and modifies
the container, setting `capacity` to the wrapped value `0` and `size` to
`2 ^ 63 + 1` — the claimed "fails and leaves the container unmodified"
behaviour does not exist in `vector.c`. -/
theorem C1_counterexample :
    (vector_push true
        { data := List.replicate (2 ^ 63) 0, size := 2 ^ 63,
          capacity := 2 ^ 63 } 7).1 = 0 ∧
    (vector_push true
        { data := List.replicate (2 ^ 63) 0, size := 2 ^ 63,
          capacity := 2 ^ 63 } 7).2.capacity = 0 ∧
    (vector_push true
        { data := List.replicate (2 ^ 63) 0, size := 2 ^ 63,
          capacity := 2 ^ 63 } 7).2.size = 2 ^ 63 + 1 := by
  rw [vector_push_full_true _ _ (le_refl _)]
  refine ⟨rfl, ?_, ?_⟩
  · show (2 : Nat) ^ 63 * GROWTH_FACTOR % WORD = 0
    norm_num [GROWTH_FACTOR, WORD]
  · show ((2 : Nat) ^ 63 + 1) % WORD = 2 ^ 63 + 1
    norm_num [WORD]

/-- C1 (amended): for the fixed integer container, a push on a full vector
grows it first with `newCapacity = capacity * GROWTH_FACTOR`, computed in
wrapping `size_t` arithmetic with *no* overflow check (there is no
`CapacityOverflow` error in `vector.c`); on allocation failure the push
fails with `-1` and leaves the container completely unmodified — size,
capacity and all stored elements (the strong guarantee); a non-full push
never changes the capacity; and `size` is incremented exactly on success. -/
theorem C1_push_growth (v : CVector) (x : Int) (ok : Bool) :
    (v.capacity ≤ v.size → vector_push false v x = (-1, v)) ∧
    (v.capacity ≤ v.size → (vector_push true v x).1 = 0 ∧
      (vector_push true v x).2.capacity =
        v.capacity * GROWTH_FACTOR % WORD) ∧
    (v.size < v.capacity → (vector_push ok v x).1 = 0 ∧
      (vector_push ok v x).2.capacity = v.capacity) ∧
    ((vector_push ok v x).1 = 0 →
      (vector_push ok v x).2.size = (v.size + 1) % WORD) ∧
    ((vector_push ok v x).1 ≠ 0 → (vector_push ok v x).2 = v) := by
  refine ⟨?_, ?_, ?_, ?_, ?_⟩
  · intro h
    exact vector_push_full_false v x h
  · intro h
    rw [vector_push_full_true v x h]
    exact ⟨rfl, rfl⟩
  · intro h
    rw [vector_push_notfull v ok x h]
    exact ⟨rfl, rfl⟩
  · intro h
    by_cases hfull : v.capacity ≤ v.size
    · cases ok with
      | false =>
        rw [vector_push_full_false v x hfull] at h
        simp at h
      | true =>
        rw [vector_push_full_true v x hfull]
    · rw [vector_push_notfull v ok x (by omega)]
  · intro h
    by_cases hfull : v.capacity ≤ v.size
    · cases ok with
      | false =>
        rw [vector_push_full_false v x hfull]
      | true =>
        rw [vector_push_full_true v x hfull] at h
        exact absurd rfl h
    · rw [vector_push_notfull v ok x (by omega)] at h
      exact absurd rfl h

/-- Witness for `C1_push_growth` on a full vector of capacity 2. -/
theorem C1_push_growth_witness :
    vector_push false { data := [5, 6], size := 2, capacity := 2 } 7 =
      (-1, { data := [5, 6], size := 2, capacity := 2 }) ∧
    (vector_push true { data := [5, 6], size := 2, capacity := 2 } 7).2.capacity =
      2 * GROWTH_FACTOR % WORD :=
  ⟨(C1_push_growth { data := [5, 6], size := 2, capacity := 2 } 7 false).1
      (by decide),
   ((C1_push_growth { data := [5, 6], size := 2, capacity := 2 } 7 true).2.1
      (by decide)).2⟩

/-- C2 (counterexample): the automatic shrink has no floor at the default
minimum.  A vector created with capacity `9` (so `capacity ≥ 8` held), after
one push and one pop, shrinks to capacity `9 / 2 = 4 < 8`: the guard only
requires `capacity > 8` *before* halving and does not clamp the result. -/
theorem C2_counterexample :
    (vector_create 9).capacity = 9 ∧
    DEFAULT_CAPACITY ≤ (vector_create 9).capacity ∧
    (vector_pop true (vector_push true (vector_create 9) 5).2 true).2.2.capacity
      = 4 ∧
    4 < DEFAULT_CAPACITY := by decide

/-- C2 (amended): `vector_pop` shrinks automatically exactly when the
popped-to length is below `capacity / 4` and `capacity` exceeds the default
minimum `8`; the shrink halves the capacity (or, on a failing `realloc`,
tolerantly leaves it unchanged).  The halved capacity is *not* floored at
the default minimum: it can be as low as `4` (for `9 ≤ capacity ≤ 15`); it
stays `≥ 8` after a pop exactly when the capacity before the pop was `≥ 16`
(or the shrink did not fire), and it never drops below `8 / 2 = 4` if the
capacity was at least `8`. -/
theorem C2_pop_shrink_policy (v : CVector) (ok w : Bool) (h : v.size ≠ 0) :
    (¬(v.size - 1 < v.capacity / 4 ∧ DEFAULT_CAPACITY < v.capacity) →
      (vector_pop ok v w).2.2.capacity = v.capacity) ∧
    ((v.size - 1 < v.capacity / 4 ∧ DEFAULT_CAPACITY < v.capacity) →
      (vector_pop ok v w).2.2.capacity = v.capacity / GROWTH_FACTOR ∨
      (vector_pop ok v w).2.2.capacity = v.capacity) ∧
    (2 * DEFAULT_CAPACITY ≤ v.capacity →
      DEFAULT_CAPACITY ≤ (vector_pop ok v w).2.2.capacity) ∧
    (DEFAULT_CAPACITY ≤ v.capacity →
      DEFAULT_CAPACITY / 2 ≤ (vector_pop ok v w).2.2.capacity) := by
  have hcap := vector_pop_capacity v ok w h
  have hD : DEFAULT_CAPACITY = 8 := rfl
  have hG : GROWTH_FACTOR = 2 := rfl
  refine ⟨?_, ?_, ?_, ?_⟩
  · intro hns
    rcases hcap with h' | ⟨hs, _, h'⟩
    · exact h'
    · exact absurd hs hns
  · intro _
    rcases hcap with h' | ⟨_, _, h'⟩
    · exact Or.inr h'
    · exact Or.inl h'
  · intro h16
    rcases hcap with h' | ⟨hs, _, h'⟩ <;> rw [h'] <;>
      simp only [hD, hG] at * <;> omega
  · intro h8
    rcases hcap with h' | ⟨hs, _, h'⟩ <;> rw [h'] <;>
      simp only [hD, hG] at * <;> omega

/-- Witness for `C2_pop_shrink_policy`: popping the one element of a
capacity-9 vector fires the shrink and halves the capacity to 4. -/
theorem C2_pop_shrink_policy_witness :
    (vector_pop true (vector_push true (vector_create 9) 5).2 true).2.2.capacity
        = (vector_push true (vector_create 9) 5).2.capacity / GROWTH_FACTOR ∨
    (vector_pop true (vector_push true (vector_create 9) 5).2 true).2.2.capacity
        = (vector_push true (vector_create 9) 5).2.capacity :=
  (C2_pop_shrink_policy (vector_push true (vector_create 9) 5).2 true true
      (by decide)).2.1 (by decide)

/-- C8: on any well-formed container (whose capacity doubling cannot wrap
`size_t`), a pop immediately after a successful `push x` succeeds, returns
exactly `x`, and restores `size` to its value before the push — LIFO order;
and a pop on an empty container fails with `-1` (the `Empty` error) and
returns the container unchanged, in particular with unchanged size. -/
theorem C8_lifo (v : CVector) (x : Int) (ok₁ ok₂ w : Bool)
    (hwf : v.WF) (hnw : 2 * v.capacity < WORD) :
    ((vector_push ok₁ v x).1 = 0 →
      (vector_pop ok₂ (vector_push ok₁ v x).2 true).1 = 0 ∧
      (vector_pop ok₂ (vector_push ok₁ v x).2 true).2.1 = some x ∧
      (vector_pop ok₂ (vector_push ok₁ v x).2 true).2.2.size = v.size) ∧
    (v.size = 0 → vector_pop ok₂ v w = (-1, none, v)) := by
  constructor
  · intro hok
    obtain ⟨_, hsize, hget, _⟩ := vector_push_success v ok₁ x hwf hnw hok
    have hne : (vector_push ok₁ v x).2.size ≠ 0 := by omega
    have hidx : (vector_push ok₁ v x).2.size - 1 = v.size := by omega
    by_cases hs : (vector_push ok₁ v x).2.size - 1 <
        (vector_push ok₁ v x).2.capacity / 4 ∧
        DEFAULT_CAPACITY < (vector_push ok₁ v x).2.capacity
    · rw [vector_pop_shrink _ ok₂ true hne hs]
      refine ⟨rfl, ?_, ?_⟩
      · simp [hidx]
        simpa using hget
      · cases ok₂
        all_goals show (vector_push ok₁ v x).2.size - 1 = v.size
        all_goals omega
    · rw [vector_pop_noshrink _ ok₂ true hne hs]
      refine ⟨rfl, ?_, ?_⟩
      · simp [hidx]
        simpa using hget
      · show (vector_push ok₁ v x).2.size - 1 = v.size
        omega
  · intro h0
    exact vector_pop_empty v ok₂ w h0

/-- Witness for `C8_lifo`: pushing `42` onto a fresh capacity-2 vector and
popping returns `42` and size `0`. -/
theorem C8_lifo_witness :
    (vector_pop true (vector_push true (vector_create 2) 42).2 true).1 = 0 ∧
    (vector_pop true (vector_push true (vector_create 2) 42).2 true).2.1 =
      some 42 ∧
    (vector_pop true (vector_push true (vector_create 2) 42).2 true).2.2.size =
      (vector_create 2).size :=
  (C8_lifo (vector_create 2) 42 true true true (by decide) (by decide)).1
    (by decide)

/-- C9: creation establishes the container invariant (`length ≤ capacity`,
buffer of exactly `capacity` allocated slots — hence non-null for positive
capacity — and positive capacity) with size `0`; every operation — push
(succeeding or not, as long as the capacity doubling cannot wrap `size_t`),
pop, set — preserves it (`vector_get` takes the container as `const` and by
its very type cannot modify it); and along any all-successful sequence of
`n` pushes from a fresh vector, after every prefix of `k` pushes the size
is exactly `k` and never exceeds the capacity.  The `2 ^ 62` side
conditions keep every `size_t` quantity reachable in the sequence below the
wrap; they are far beyond any physically allocatable vector. -/
theorem C9_invariants (c0 : Nat) (v : CVector) (ok w : Bool) (x : Int)
    (i : Nat) (ps : List (Bool × Int))
    (hwf : v.WF) (hnw : 2 * v.capacity < WORD)
    (hc0 : c0 < 2 ^ 62) (hn : ps.length < 2 ^ 62) :
    ((vector_create c0).WF ∧ (vector_create c0).size = 0) ∧
    (vector_push ok v x).2.WF ∧
    (vector_pop ok v w).2.2.WF ∧
    (vector_set v i x).2.WF ∧
    (pushAllOk (vector_create c0) ps →
      ∀ k, k ≤ ps.length →
        (pushIter (vector_create c0) (ps.take k)).size = k ∧
        (pushIter (vector_create c0) (ps.take k)).size ≤
          (pushIter (vector_create c0) (ps.take k)).capacity) := by
  refine ⟨⟨vector_create_WF c0, rfl⟩, vector_push_WF v ok x hwf hnw,
    vector_pop_WF v ok w hwf, vector_set_WF v i x hwf, ?_⟩
  intro hok k hk
  have hcc : (vector_create c0).capacity < 2 ^ 62 + 8 := by
    unfold vector_create
    by_cases h : c0 = 0
    · simp [h, DEFAULT_CAPACITY]
    · simp only [h, if_false]
      omega
  have hW : WORD = 18446744073709551616 := by norm_num [WORD]
  have hsz0 : (vector_create c0).size = 0 := rfl
  have htl : (ps.take k).length = k := by
    rw [List.length_take]
    omega
  have hbound : 2 * max (vector_create c0).capacity
      (2 * ((vector_create c0).size + (ps.take k).length)) < WORD := by
    rw [hsz0, htl, hW]
    omega
  obtain ⟨⟨hle, -, -⟩, hsize, -⟩ := pushIter_spec (ps.take k)
    (vector_create c0) (vector_create c0).capacity (vector_create_WF c0)
    (le_max_left _ _) hbound (pushAllOk_take _ _ _ hok)
  constructor
  · rw [hsize, hsz0, htl]
    omega
  · exact hle

/-- Witness for `C9_invariants` with a fresh capacity-2 vector and the
all-successful push sequence `[1, 2, 3]`. -/
theorem C9_invariants_witness :
    (vector_create 2).WF ∧
    (pushIter (vector_create 2) [(true, 1), (true, 2), (true, 3)]).size = 3 ∧
    (pushIter (vector_create 2) [(true, 1), (true, 2), (true, 3)]).size ≤
      (pushIter (vector_create 2) [(true, 1), (true, 2), (true, 3)]).capacity := by
  have h := C9_invariants 2 (vector_create 2) true true 1 0
    [(true, 1), (true, 2), (true, 3)] (by decide) (by decide) (by decide)
    (by decide)
  have h3 := h.2.2.2.2 (by decide) 3 (by decide)
  exact ⟨h.1.1, h3.1, h3.2⟩
